import Mathlib

/-
  Verification of the hive-mind solver (src/main.rs).

  The Rust program is embedded shallowly:
  - machine integers isize/usize become Int/Nat; the cast `i as usize`
    is modelled with an explicit wrap modulo 2 ^ 64 (usizeCast);
  - code that can panic (expect, unimplemented!, out-of-bounds indexing)
    returns Option, with none standing for a panic;
  - the two unbounded recursions of the program (ice sliding in
    State::from and the search in solve) take an explicit fuel
    argument; exhausting the fuel also yields none.
  Character indices of the Rust char_indices iterator are modelled
  positionally; the two coincide on ASCII input, and every input the
  program accepts is ASCII.
-/

set_option maxHeartbeats 1000000

namespace HiveMind

/-- Error kinds of the program (enum Error in main.rs). -/
inductive Error
  | InputEmpty
  | NoExit
  | NoSolution
  | NoPlayer
  deriving DecidableEq, Repr

/-- Tile kinds (enum Tile in main.rs). -/
inductive Tile
  | None
  | Wall
  | Teleport
  | Pit
  | Ice
  | Exit
  deriving DecidableEq, Repr

/-- The four movement directions, in the order of the source enum. -/
inductive Dir
  | Up
  | Down
  | Right
  | Left
  deriving DecidableEq, Repr

/-- A player position: a pair of signed machine integers (struct Player). -/
structure Player where
  x : Int
  y : Int
  deriving DecidableEq, Repr

/-- Outcome of one resolved move (enum State in main.rs). -/
inductive State
  | Success
  | Dead
  | Just (p : Player)
  deriving DecidableEq, Repr

/-- A board: the grid of tiles and the exit column (struct Board). -/
structure Board where
  tiles : List (List Tile)
  exit : Nat
  deriving DecidableEq, Repr

/-- The Rust cast `i as usize` on an isize value: wrap modulo 2 ^ 64. -/
def usizeCast (i : Int) : Nat :=
  (i % (2 ^ 64 : Int)).toNat

/-- Board::get_tile. Returns none where the Rust code panics: the
expect on the grid lookup for coordinates far outside the grid, and the
indexing of tiles[0] when the grid has no rows. The branches follow the
source, including the short-circuit order of the boundary tests. -/
def Board.get_tile (b : Board) (p : Player) : Option Tile :=
  if p.y = -1 then
    if 0 ≤ p.x then
      if p.x.toNat = b.exit then some Tile.Exit else some Tile.Wall
    else some Tile.Wall
  else if p.y = (b.tiles.length : Int) then some Tile.Wall
  else if p.x = -1 then some Tile.Wall
  else
    match b.tiles[0]? with
    | none => none
    | some row0 =>
      if p.x = (row0.length : Int) then some Tile.Wall
      else
        match b.tiles[usizeCast p.y]? with
        | none => none
        | some row => row[usizeCast p.x]?

/-- Player::hop: move one cell in a direction. -/
def Player.hop (p : Player) (d : Dir) : Player :=
  match d with
  | Dir.Up => ⟨p.x, p.y - 1⟩
  | Dir.Down => ⟨p.x, p.y + 1⟩
  | Dir.Right => ⟨p.x + 1, p.y⟩
  | Dir.Left => ⟨p.x - 1, p.y⟩

/-- Iterated hop: the cell n steps away in direction d. -/
def hopN (d : Dir) : Nat → Player → Player
  | 0, p => p
  | n + 1, p => hopN d n (p.hop d)

/-- Scan one row (enumerated from cell index x) for a Teleport tile at a
cell other than (sx, sy); first match wins, as in the find_map of
Player::teleport. -/
def findTeleportInRow (sx sy y : Nat) : Nat → List Tile → Option Player
  | _, [] => none
  | x, t :: rest =>
    if t = Tile.Teleport ∧ ¬(x = sx ∧ y = sy) then
      some ⟨Int.ofNat x, Int.ofNat y⟩
    else findTeleportInRow sx sy y (x + 1) rest

/-- Scan the rows (enumerated from row index y) for the first Teleport
cell other than (sx, sy), in row-major order. -/
def findTeleportRows (sx sy : Nat) : Nat → List (List Tile) → Option Player
  | _, [] => none
  | y, row :: rest =>
    match findTeleportInRow sx sy y 0 row with
    | some p => some p
    | none => findTeleportRows sx sy (y + 1) rest

/-- Player::teleport. none models the two panics of the source: the
assertion that the current tile is a Teleport, and the expect when no
second Teleport cell exists. -/
def Player.teleport (self : Player) (b : Board) : Option Player :=
  match b.get_tile self with
  | some Tile.Teleport =>
    findTeleportRows (usizeCast self.x) (usizeCast self.y) 0 b.tiles
  | _ => none

/-- State::from: resolve the landing of a move of direction d from frm
onto to. The Ice arm recurses one cell further (Player::slide); the
recursion carries a fuel, and fuel 0 is none. Teleport and tile-lookup
panics propagate as none. -/
def stateFrom : Nat → Dir → Player → Player → Board → Option State
  | 0, _, _, _, _ => none
  | fuel + 1, dir, frm, dest, board =>
    match board.get_tile dest with
    | none => none
    | some Tile.None => some (State.Just dest)
    | some Tile.Wall => some (State.Just frm)
    | some Tile.Teleport => (dest.teleport board).map State.Just
    | some Tile.Ice => stateFrom fuel dir dest (dest.hop dir) board
    | some Tile.Pit => some State.Dead
    | some Tile.Exit => some State.Success

/-- Player::slide: resolve the same direction one cell further. -/
def Player.slide (fuel : Nat) (self : Player) (d : Dir) (b : Board) : Option State :=
  stateFrom fuel d self (self.hop d) b

/-- The apply function: hop one cell, then resolve the landing. -/
def apply (fuel : Nat) (d : Dir) (b : Board) (p : Player) : Option State :=
  stateFrom fuel d p (p.hop d) b

/-- Split a character list at every newline. -/
def splitNL : List Char → List (List Char)
  | [] => [[]]
  | '\n' :: rest => [] :: splitNL rest
  | c :: rest =>
    match splitNL rest with
    | [] => [[c]]
    | l :: ls => (c :: l) :: ls

/-- Strip one trailing carriage return, as the Rust lines iterator does. -/
def stripCR (l : List Char) : List Char :=
  match l.getLast? with
  | some '\r' => l.dropLast
  | _ => l

/-- The Rust str::lines iterator: split on newlines, drop the final
empty segment produced by a trailing newline, strip a trailing carriage
return from each line. -/
def rustLines (s : String) : List (List Char) :=
  let parts := splitNL s.toList
  let parts := if parts.getLast? = some [] then parts.dropLast else parts
  parts.map stripCR

/-- The tile characters accepted by Board::parse; any other character
hits unimplemented! (a panic, modelled as none). -/
def parseTile : Char → Option Tile
  | '.' => some Tile.None
  | 'R' => some Tile.None
  | 'T' => some Tile.Teleport
  | 'P' => some Tile.Pit
  | 'I' => some Tile.Ice
  | 'W' => some Tile.Wall
  | _ => none

/-- Parse the grid rows of a board description. -/
def parseRows (ls : List (List Char)) : Option (List (List Tile)) :=
  ls.mapM fun l => l.mapM parseTile

/-- Board::parse. The outer Option is a panic (unrecognized tile
character); the Except carries the error kinds the function returns. -/
def Board.parse (input : String) : Option (Except Error Board) :=
  match rustLines input with
  | [] => some (Except.error Error.InputEmpty)
  | first :: rest =>
    match first.findIdx? fun c => c == 'x' with
    | none => some (Except.error Error.NoExit)
    | some exit =>
      match parseRows rest with
      | none => none
      | some tiles => some (Except.ok ⟨tiles, exit⟩)

/-- Scan the grid rows (enumerated from row index y) for the first cell
holding the character R, as in Player::parse. -/
def findPlayerRows : Nat → List (List Char) → Option Player
  | _, [] => none
  | y, r :: rest =>
    match r.findIdx? fun c => c == 'R' with
    | some x => some ⟨Int.ofNat x, Int.ofNat y⟩
    | none => findPlayerRows (y + 1) rest

/-- Player::parse: find the initial player position, skipping the exit
line. -/
def Player.parse (input : String) : Except Error Player :=
  match rustLines input with
  | [] => Except.error Error.NoPlayer
  | _ :: rest =>
    match findPlayerRows 0 rest with
    | some p => Except.ok p
    | none => Except.error Error.NoPlayer

/-- Split a character list at the first occurrence of a double newline. -/
def splitOnceNN : List Char → Option (List Char × List Char)
  | [] => none
  | '\n' :: '\n' :: rest => some ([], rest)
  | c :: rest => (splitOnceNN rest).map fun p => (c :: p.1, p.2)

/-- The Rust str::split_once on the separator of two blank-separated
boards: split at the first occurrence of a double newline. -/
def rustSplitOnce (s : String) : Option (String × String) :=
  (splitOnceNN s.toList).map fun p => (String.mk p.1, String.mk p.2)

/-- The body of solve: iterate the four directions in the fixed order
Up, Down, Right, Left (the dirs argument), resolving the move on both
boards; recurse depth-first on an unvisited Arrived/Arrived pair. The
outer Option is a panic or fuel exhaustion; the inner Option is the
Option the Rust solve returns (none = no solution on this worklist).
Fuel decreases on every recursive call, both to the next direction and
into a child, so any terminating run of the source is reproduced by
every sufficiently large fuel. -/
def solveGo (sf : Nat) (b1 b2 : Board) :
    Nat → List Dir → Player → Player → List (Player × Player) → List Dir →
    Option (Option (List Dir))
  | 0, _, _, _, _, _ => none
  | _ + 1, [], _, _, _, _ => some none
  | fuel + 1, dir :: rest, p1, p2, visited, history =>
    match apply sf dir b1 p1, apply sf dir b2 p2 with
    | some State.Success, some State.Success => some (some (history ++ [dir]))
    | some (State.Just np1), some (State.Just np2) =>
      if (np1, np2) ∈ visited then solveGo sf b1 b2 fuel rest p1 p2 visited history
      else
        match solveGo sf b1 b2 fuel [Dir.Up, Dir.Down, Dir.Right, Dir.Left]
            np1 np2 ((np1, np2) :: visited) (history ++ [dir]) with
        | none => none
        | some (some h) => some (some h)
        | some none => solveGo sf b1 b2 fuel rest p1 p2 visited history
    | none, _ => none
    | _, none => none
    | _, _ => solveGo sf b1 b2 fuel rest p1 p2 visited history

/-- The solve function of the source, fuelled. -/
def solve (sf g : Nat) (b1 : Board) (p1 : Player) (b2 : Board) (p2 : Player)
    (visited : List (Player × Player)) (history : List Dir) :
    Option (Option (List Dir)) :=
  solveGo sf b1 b2 g [Dir.Up, Dir.Down, Dir.Right, Dir.Left] p1 p2 visited history

/-- solve_puzzle: split the input at the blank line (a missing second
board panics), parse both boards and both players, run the search from
the initial joint state, and turn its Option into a Result. -/
def solve_puzzle (sf g : Nat) (input : String) : Option (Except Error (List Dir)) :=
  match rustSplitOnce input with
  | none => none
  | some (input1, input2) =>
    match Board.parse input1 with
    | none => none
    | some (Except.error e) => some (Except.error e)
    | some (Except.ok b1) =>
      match Player.parse input1 with
      | Except.error e => some (Except.error e)
      | Except.ok p1 =>
        match Board.parse input2 with
        | none => none
        | some (Except.error e) => some (Except.error e)
        | some (Except.ok b2) =>
          match Player.parse input2 with
          | Except.error e => some (Except.error e)
          | Except.ok p2 =>
            match solve sf g b1 p1 b2 p2 [(p1, p2)] [] with
            | none => none
            | some none => some (Except.error Error.NoSolution)
            | some (some h) => some (Except.ok h)

/-- Replay a direction sequence through the movement resolver from a
pair of start positions: true when every move before the last leaves
both tokens Arrived and the last move resolves to Success for both. -/
def replayOk (sf : Nat) (b1 b2 : Board) : Player → Player → List Dir → Bool
  | _, _, [] => false
  | p1, p2, d :: rest =>
    match apply sf d b1 p1, apply sf d b2 p2 with
    | some State.Success, some State.Success => rest.isEmpty
    | some (State.Just q1), some (State.Just q2) => replayOk sf b1 b2 q1 q2 rest
    | _, _ => false

/-- Collect the joint Arrived/Arrived positions entered while replaying
a direction sequence (the final Success move contributes nothing). -/
def collectJoint (sf : Nat) (b1 b2 : Board) : Player → Player → List Dir →
    Option (List (Player × Player))
  | _, _, [] => some []
  | p1, p2, d :: rest =>
    match apply sf d b1 p1, apply sf d b2 p2 with
    | some State.Success, some State.Success =>
      if rest.isEmpty then some [] else none
    | some (State.Just q1), some (State.Just q2) =>
      (collectJoint sf b1 b2 q1 q2 rest).map fun ps => (q1, q2) :: ps
    | _, _ => none

/-! ## Theorems -/

/-- C3 (counterexample): the claim says every position strictly outside
the grid, two or more cells beyond an edge included, resolves to Wall;
but at (0, -2) on a 1-by-1 open board the lookup panics (none), because
the code only tests for the exact boundary values -1 and the lengths
before indexing the grid. -/
theorem get_tile_panics_off_grid :
    Board.get_tile ⟨[[Tile.None]], 0⟩ ⟨0, -2⟩ = none := rfl

/-- C3 (amended): Board::get_tile on the virtual row y = -1 returns
Exit exactly at the exit column and Wall elsewhere; it returns Wall at
exactly y = row count, at x = -1, and at x = width; it returns the
stored tile for in-grid positions; for y two or more rows above the
grid (with x not on a boundary value) it panics; and assuming the grid
stores no Exit tile, Exit is returned exactly at the exit gap. -/
theorem get_tile_clauses (b : Board) (x y : Int) :
    (b.get_tile ⟨x, -1⟩ =
        some (if 0 ≤ x ∧ x.toNat = b.exit then Tile.Exit else Tile.Wall))
    ∧ (y = (b.tiles.length : Int) → b.get_tile ⟨x, y⟩ = some Tile.Wall)
    ∧ (x = -1 → y ≠ -1 → y ≠ (b.tiles.length : Int) →
        b.get_tile ⟨x, y⟩ = some Tile.Wall)
    ∧ (∀ row0, b.tiles[0]? = some row0 → x = (row0.length : Int) → y ≠ -1 →
        y ≠ (b.tiles.length : Int) → b.get_tile ⟨x, y⟩ = some Tile.Wall)
    ∧ (0 ≤ y → y < (b.tiles.length : Int) → y < 2 ^ 64 → 0 ≤ x → x < 2 ^ 64 →
        (∀ r ∈ b.tiles, x < (r.length : Int)) →
        ∃ row t, b.tiles[y.toNat]? = some row ∧ row[x.toNat]? = some t ∧
          b.get_tile ⟨x, y⟩ = some t)
    ∧ (y < -1 → -(2 ^ 63) < y → x ≠ -1 → (∀ r ∈ b.tiles, x ≠ (r.length : Int)) →
        (b.tiles.length : Int) < 2 ^ 63 → b.get_tile ⟨x, y⟩ = none)
    ∧ ((∀ r ∈ b.tiles, Tile.Exit ∉ r) →
        (b.get_tile ⟨x, y⟩ = some Tile.Exit ↔ y = -1 ∧ 0 ≤ x ∧ x.toNat = b.exit)) := by
  refine ⟨?_, ?_, ?_, ?_, ?_, ?_, ?_⟩
  · by_cases hx : 0 ≤ x
    · by_cases he : x.toNat = b.exit
      · simp [Board.get_tile, hx, he]
      · simp [Board.get_tile, hx, he]
    · simp [Board.get_tile, hx]
  · intro h
    subst h
    simp only [Board.get_tile]
    rw [if_neg (by omega)]
    simp
  · intro hx hy hyl
    subst hx
    simp only [Board.get_tile]
    rw [if_neg hy, if_neg hyl]
    simp
  · intro row0 h0 hx hy hyl
    simp only [Board.get_tile]
    rw [if_neg hy, if_neg hyl, if_neg (by omega)]
    simp only [h0]
    rw [if_pos hx]
  · intro hy0 hylen hy64 hx0 hx64 hxw
    have hyn : y.toNat < b.tiles.length := by omega
    have hrow := List.getElem?_eq_getElem hyn
    have hrmem : b.tiles[y.toNat] ∈ b.tiles := List.getElem?_mem hrow
    have hxr : x.toNat < (b.tiles[y.toNat]).length := by
      have := hxw _ hrmem
      omega
    have ht := List.getElem?_eq_getElem hxr
    refine ⟨b.tiles[y.toNat], (b.tiles[y.toNat])[x.toNat], hrow, ht, ?_⟩
    simp only [Board.get_tile]
    rw [if_neg (by omega), if_neg (by omega), if_neg (by omega)]
    have h0n : 0 < b.tiles.length := by omega
    have h0 := List.getElem?_eq_getElem h0n
    have h0mem : b.tiles[0] ∈ b.tiles := List.getElem?_mem h0
    have hcy : usizeCast y = y.toNat := by unfold usizeCast; omega
    have hcx : usizeCast x = x.toNat := by unfold usizeCast; omega
    simp only [h0]
    rw [if_neg (by have := hxw _ h0mem; omega)]
    simp only [hcy, hcx, hrow, ht]
  · intro hy1 hy2 hx hxw hlen
    simp only [Board.get_tile]
    rw [if_neg (by omega), if_neg (by omega), if_neg hx]
    rcases h0 : b.tiles[0]? with _ | r0
    · simp only [h0]
    · simp only [h0]
      rw [if_neg (hxw r0 (List.getElem?_mem h0))]
      have hbig : b.tiles.length ≤ usizeCast y := by unfold usizeCast; omega
      simp only [List.getElem?_eq_none hbig]
  · intro hne
    constructor
    · intro h
      by_cases hy : y = -1
      · subst hy
        refine ⟨rfl, ?_⟩
        by_cases hx : 0 ≤ x
        · by_cases he : x.toNat = b.exit
          · exact ⟨hx, he⟩
          · simp [Board.get_tile, hx, he] at h
        · simp [Board.get_tile, hx] at h
      · exfalso
        simp only [Board.get_tile] at h
        rw [if_neg hy] at h
        by_cases hyl : y = (b.tiles.length : Int)
        · rw [if_pos hyl] at h
          simp at h
        · rw [if_neg hyl] at h
          by_cases hx1 : x = -1
          · rw [if_pos hx1] at h
            simp at h
          · rw [if_neg hx1] at h
            rcases h0 : b.tiles[0]? with _ | r0
            · simp only [h0] at h
              simp at h
            · simp only [h0] at h
              by_cases hxr : x = (r0.length : Int)
              · rw [if_pos hxr] at h
                simp at h
              · rw [if_neg hxr] at h
                rcases hr : b.tiles[usizeCast y]? with _ | row
                · simp only [hr] at h
                  simp at h
                · simp only [hr] at h
                  exact hne row (List.getElem?_mem hr) (List.getElem?_mem h)
    · rintro ⟨rfl, hx, he⟩
      simp [Board.get_tile, hx, he]

/-- Witness for the amended tile-lookup clauses: on a 1-by-2 open board,
row 1 is exactly one past the last row, so the lookup returns Wall. -/
theorem get_tile_clauses_witness :
    Board.get_tile ⟨[[Tile.None, Tile.None]], 1⟩ ⟨7, 1⟩ = some Tile.Wall :=
  (get_tile_clauses ⟨[[Tile.None, Tile.None]], 1⟩ 7 1).2.1 (by decide)

/-- C7: a wall stops movement one cell short. If the n cells after frm
in direction d are all Ice and the cell after them is a Wall, the
resolver leaves the token on the last ice cell (the cell the blocked
hop was attempted from); with n = 0 this is the plain bounce that
leaves the position unchanged. -/
theorem wall_stops_slide (b : Board) (d : Dir) :
    ∀ (n : Nat) (frm : Player),
      (∀ k < n, b.get_tile (hopN d (k + 1) frm) = some Tile.Ice) →
      b.get_tile (hopN d (n + 1) frm) = some Tile.Wall →
      ∀ f, n < f → stateFrom f d frm (frm.hop d) b = some (State.Just (hopN d n frm))
  | 0, frm, _, hwall, f + 1, _ => by
    have h1 : hopN d 1 frm = frm.hop d := rfl
    rw [h1] at hwall
    simp [stateFrom, hwall, hopN]
  | n + 1, frm, hice, hwall, f + 1, hf => by
    have h1 : b.get_tile (frm.hop d) = some Tile.Ice := hice 0 (Nat.succ_pos n)
    have hrec := wall_stops_slide b d n (frm.hop d)
      (fun k hk => hice (k + 1) (by omega)) hwall f (by omega)
    simp only [stateFrom, h1]
    exact hrec

/-- Witness for the wall-stop theorem: on the board open-ice-wall, a
move right from (0, 0) slides onto the ice at (1, 0), is blocked by the
wall at (2, 0) and rests on the ice cell. -/
theorem wall_stops_slide_witness :
    stateFrom 2 Dir.Right ⟨0, 0⟩ ⟨1, 0⟩ ⟨[[Tile.None, Tile.Ice, Tile.Wall]], 0⟩ =
      some (State.Just ⟨1, 0⟩) :=
  wall_stops_slide ⟨[[Tile.None, Tile.Ice, Tile.Wall]], 0⟩ Dir.Right 1 ⟨0, 0⟩
    (by decide) (by decide) 2 (by decide)

/-- C6 (counterexample): the claim says a terminating slide ends on a
non-ice tile, but a slide stopped by a wall rests on the last ice tile:
on the board open-ice-wall, moving right from (0, 0) terminates with
the token Arrived on (1, 0), whose tile is Ice. -/
theorem slide_rests_on_ice :
    stateFrom 3 Dir.Right ⟨0, 0⟩ ⟨1, 0⟩ ⟨[[Tile.None, Tile.Ice, Tile.Wall]], 0⟩ =
      some (State.Just ⟨1, 0⟩)
    ∧ Board.get_tile ⟨[[Tile.None, Tile.Ice, Tile.Wall]], 0⟩ ⟨1, 0⟩ = some Tile.Ice := by
  decide

/-- C6 (amended): ice sliding terminates whenever the straight ray from
the entered cell reaches a non-ice tile — true of every board whose
ice/teleport transitions are acyclic, since a slide only ever advances
in a straight line (a teleport ends the slide). Concretely: if the cell
n hops from dest is not Ice, the resolver's value is already fixed at
fuel n + 1, and every larger fuel returns the same outcome. -/
theorem slide_fuel_stable (b : Board) (d : Dir) :
    ∀ (n : Nat) (frm dest : Player),
      b.get_tile (hopN d n dest) ≠ some Tile.Ice →
      ∀ f, n < f → stateFrom f d frm dest b = stateFrom (n + 1) d frm dest b
  | 0, frm, dest, h, f + 1, _ => by
    simp only [hopN] at h
    rcases ht : b.get_tile dest with _ | t
    · simp [stateFrom, ht]
    · cases t <;> simp_all [stateFrom, ht]
  | n + 1, frm, dest, h, f + 1, hf => by
    rcases ht : b.get_tile dest with _ | t
    · simp [stateFrom, ht]
    · cases t
      case Ice =>
        have hrec := slide_fuel_stable b d n dest (dest.hop d) h f (by omega)
        simp only [stateFrom, ht]
        exact hrec
      all_goals simp [stateFrom, ht]

/-- Witness for slide stabilization: on the open-ice-wall board the ray
right of (0, 0) leaves the ice after one hop, and the resolver at fuel
5 agrees with fuel 2. -/
theorem slide_fuel_stable_witness :
    stateFrom 5 Dir.Right ⟨0, 0⟩ ⟨1, 0⟩ ⟨[[Tile.None, Tile.Ice, Tile.Wall]], 0⟩ =
      stateFrom 2 Dir.Right ⟨0, 0⟩ ⟨1, 0⟩ ⟨[[Tile.None, Tile.Ice, Tile.Wall]], 0⟩ :=
  slide_fuel_stable ⟨[[Tile.None, Tile.Ice, Tile.Wall]], 0⟩ Dir.Right 1 ⟨0, 0⟩ ⟨1, 0⟩
    (by decide) 5 (by decide)

/-- The teleport cells of one row (cell indices counted from x), in
scan order; a measurement used to state the teleport contract. -/
def rowTeleports (y : Nat) : Nat → List Tile → List (Nat × Nat)
  | _, [] => []
  | x, t :: rest =>
    if t = Tile.Teleport then (x, y) :: rowTeleports y (x + 1) rest
    else rowTeleports y (x + 1) rest

/-- All teleport cells of a grid (row indices counted from y), in
row-major scan order. -/
def teleportCoords : Nat → List (List Tile) → List (Nat × Nat)
  | _, [] => []
  | y, row :: rest => rowTeleports y 0 row ++ teleportCoords (y + 1) rest

/-- The scan condition of Player::teleport: a cell at coordinates c is
a candidate when it is not the self cell (sx, sy). -/
def notSelf (sx sy : Nat) (c : Nat × Nat) : Bool :=
  !(c.1 == sx && c.2 == sy)

/-- The row scan of Player::teleport returns the first teleport cell of
the row that differs from the scanned-for self position. -/
theorem findInRow_eq (sx sy y : Nat) :
    ∀ (row : List Tile) (x : Nat),
      findTeleportInRow sx sy y x row =
        ((rowTeleports y x row).find? (notSelf sx sy)).map
          fun c => (⟨Int.ofNat c.1, Int.ofNat c.2⟩ : Player)
  | [], _ => rfl
  | t :: rest, x => by
    by_cases hT : t = Tile.Teleport
    · by_cases hS : x = sx ∧ y = sy
      · simp only [findTeleportInRow, rowTeleports, if_pos hT]
        rw [if_neg (by tauto)]
        rw [List.find?_cons_of_neg _ (by simp [notSelf]; tauto)]
        exact findInRow_eq sx sy y rest (x + 1)
      · simp only [findTeleportInRow, rowTeleports, if_pos hT]
        rw [if_pos ⟨hT, hS⟩]
        rw [List.find?_cons_of_pos _ (by simp [notSelf]; tauto)]
        rfl
    · simp only [findTeleportInRow, rowTeleports, if_neg hT]
      rw [if_neg (by tauto)]
      exact findInRow_eq sx sy y rest (x + 1)

/-- The grid scan of Player::teleport returns the first teleport cell in
row-major order that differs from the scanned-for self position. -/
theorem findRows_eq (sx sy : Nat) :
    ∀ (tiles : List (List Tile)) (y : Nat),
      findTeleportRows sx sy y tiles =
        ((teleportCoords y tiles).find? (notSelf sx sy)).map
          fun c => (⟨Int.ofNat c.1, Int.ofNat c.2⟩ : Player)
  | [], _ => rfl
  | row :: rest, y => by
    simp only [findTeleportRows, teleportCoords, List.find?_append,
      findInRow_eq sx sy y row 0]
    rcases h : (rowTeleports y 0 row).find? (notSelf sx sy) with _ | c
    · simp [h, findRows_eq sx sy rest (y + 1)]
    · simp [h]

/-- C8 (counterexample): on a board with three Teleport cells there is
more than one other teleport cell, yet the resolution does not fail: it
relocates the token at (0, 0) to the first other cell in row-major scan
order, (1, 0). -/
theorem teleport_no_failure_on_three :
    ((teleportCoords 0 [[Tile.Teleport, Tile.Teleport, Tile.Teleport]]).filter
        (notSelf 0 0) = [(1, 0), (2, 0)])
    ∧ Player.teleport ⟨0, 0⟩ ⟨[[Tile.Teleport, Tile.Teleport, Tile.Teleport]], 0⟩ =
        some ⟨1, 0⟩ := by
  decide

/-- C8 (amended): stepping onto a Teleport tile relocates the token,
within the same single resolver call, to the first other grid cell
tagged Teleport in row-major scan order; when exactly one other exists
this is the unique partner, and when none exists the resolution fails
fatally (panic). -/
theorem teleport_resolution (b : Board) (d : Dir) (frm dest : Player) (q : Nat × Nat)
    (f : Nat) (ht : b.get_tile dest = some Tile.Teleport) :
    ((teleportCoords 0 b.tiles).filter (notSelf (usizeCast dest.x) (usizeCast dest.y)) = [q] →
      stateFrom (f + 1) d frm dest b =
        some (State.Just ⟨Int.ofNat q.1, Int.ofNat q.2⟩))
    ∧ ((teleportCoords 0 b.tiles).filter (notSelf (usizeCast dest.x) (usizeCast dest.y)) = [] →
      stateFrom (f + 1) d frm dest b = none) := by
  have hh := List.filter_head? (notSelf (usizeCast dest.x) (usizeCast dest.y))
    (teleportCoords 0 b.tiles)
  constructor <;> intro h <;> rw [h] at hh <;>
    simp [stateFrom, ht, Player.teleport, findRows_eq, ← hh]

/-- Witness: on the board teleport-open-teleport with the token
stepping left onto the teleporter at (0, 0), the unique other teleport
cell is (2, 0) and the resolver relocates the token there in one move. -/
theorem teleport_resolution_witness :
    stateFrom 1 Dir.Left ⟨1, 0⟩ ⟨0, 0⟩ ⟨[[Tile.Teleport, Tile.None, Tile.Teleport]], 0⟩ =
      some (State.Just ⟨2, 0⟩) :=
  (teleport_resolution ⟨[[Tile.Teleport, Tile.None, Tile.Teleport]], 0⟩ Dir.Left
    ⟨1, 0⟩ ⟨0, 0⟩ (2, 0) 0 (by decide)).1 (by decide)

/-- C4: the synchronized-exit combination rule of solve. Given the two
resolver outcomes for one direction, the child turn succeeds (the
history extended by that direction is returned at once) exactly when
both are Exited; when either token is Dead, or one exits while the
other merely arrives, the child is Failed and the search moves on to
the remaining directions as if the child had been discarded. -/
theorem solve_combination (sf f : Nat) (b1 b2 : Board) (p1 p2 : Player)
    (vis : List (Player × Player)) (hist : List Dir) (d : Dir) (rest : List Dir)
    (s1 s2 : State) (h1 : apply sf d b1 p1 = some s1) (h2 : apply sf d b2 p2 = some s2) :
    ((s1 = State.Success ∧ s2 = State.Success) →
      solveGo sf b1 b2 (f + 1) (d :: rest) p1 p2 vis hist = some (some (hist ++ [d])))
    ∧ ((s1 = State.Dead ∨ s2 = State.Dead
        ∨ (s1 = State.Success ∧ s2 ≠ State.Success)
        ∨ (s2 = State.Success ∧ s1 ≠ State.Success)) →
      solveGo sf b1 b2 (f + 1) (d :: rest) p1 p2 vis hist =
        solveGo sf b1 b2 f rest p1 p2 vis hist) := by
  constructor
  · rintro ⟨rfl, rfl⟩
    simp [solveGo, h1, h2]
  · intro hcase
    cases s1 <;> cases s2 <;>
      first
      | (simp [solveGo, h1, h2]; done)
      | simp at hcase

/-- Witness for the combination rule: on two 1-by-1 boards with the
token below the exit, moving Up exits both tokens and the search
returns the one-move history immediately. -/
theorem solve_combination_witness :
    solveGo 1 ⟨[[Tile.None]], 0⟩ ⟨[[Tile.None]], 0⟩ 3 [Dir.Up] ⟨0, 0⟩ ⟨0, 0⟩ [] [] =
      some (some [Dir.Up]) :=
  (solve_combination 1 2 ⟨[[Tile.None]], 0⟩ ⟨[[Tile.None]], 0⟩ ⟨0, 0⟩ ⟨0, 0⟩ [] []
    Dir.Up [] State.Success State.Success rfl rfl).1 ⟨rfl, rfl⟩

/-- Any history returned by the search extends the accumulated history
by a suffix that replays to a joint success from the current pair of
positions. -/
theorem solveGo_sound (sf : Nat) (b1 b2 : Board) :
    ∀ (f : Nat) (dirs : List Dir) (p1 p2 : Player) (vis : List (Player × Player))
      (hist h : List Dir),
      solveGo sf b1 b2 f dirs p1 p2 vis hist = some (some h) →
      ∃ suf, h = hist ++ suf ∧ replayOk sf b1 b2 p1 p2 suf = true
  | 0, dirs, p1, p2, vis, hist, h, hrun => by simp [solveGo] at hrun
  | f + 1, [], p1, p2, vis, hist, h, hrun => by simp [solveGo] at hrun
  | f + 1, dir :: rest, p1, p2, vis, hist, h, hrun => by
    simp only [solveGo] at hrun
    rcases ha1 : apply sf dir b1 p1 with _ | s1
    · rw [ha1] at hrun
      simp at hrun
    rcases ha2 : apply sf dir b2 p2 with _ | s2
    · rw [ha1, ha2] at hrun
      cases s1 <;> simp at hrun
    rw [ha1, ha2] at hrun
    cases s1 with
    | Success =>
      cases s2 with
      | Success =>
        refine ⟨[dir], ?_, ?_⟩
        · simpa using hrun.symm
        · simp [replayOk, ha1, ha2]
      | Dead =>
        exact solveGo_sound sf b1 b2 f rest p1 p2 vis hist h (by simpa using hrun)
      | Just np2 =>
        exact solveGo_sound sf b1 b2 f rest p1 p2 vis hist h (by simpa using hrun)
    | Dead =>
      cases s2 <;>
        exact solveGo_sound sf b1 b2 f rest p1 p2 vis hist h (by simpa using hrun)
    | Just np1 =>
      cases s2 with
      | Success =>
        exact solveGo_sound sf b1 b2 f rest p1 p2 vis hist h (by simpa using hrun)
      | Dead =>
        exact solveGo_sound sf b1 b2 f rest p1 p2 vis hist h (by simpa using hrun)
      | Just np2 =>
        simp only at hrun
        by_cases hv : (np1, np2) ∈ vis
        · rw [if_pos hv] at hrun
          exact solveGo_sound sf b1 b2 f rest p1 p2 vis hist h hrun
        · rw [if_neg hv] at hrun
          rcases hc : solveGo sf b1 b2 f [Dir.Up, Dir.Down, Dir.Right, Dir.Left]
              np1 np2 ((np1, np2) :: vis) (hist ++ [dir]) with _ | oc
          · rw [hc] at hrun
            simp at hrun
          · rcases oc with _ | h'
            · rw [hc] at hrun
              simp only at hrun
              exact solveGo_sound sf b1 b2 f rest p1 p2 vis hist h hrun
            · rw [hc] at hrun
              have hh : h' = h := by simpa using hrun
              subst hh
              obtain ⟨suf, hsuf, hrep⟩ := solveGo_sound sf b1 b2 f
                [Dir.Up, Dir.Down, Dir.Right, Dir.Left] np1 np2
                ((np1, np2) :: vis) (hist ++ [dir]) h' hc
              refine ⟨dir :: suf, ?_, ?_⟩
              · simpa using hsuf
              · simp [replayOk, ha1, ha2, hrep]

/-- C1 (solution soundness): whenever solve_puzzle returns Ok(history)
on an input whose two halves parse to boards b1, b2 with start
positions p1, p2, replaying that history through the movement resolver
from both start positions leaves both tokens Arrived on every move
before the last and resolves the last move to Exited for both tokens
simultaneously. -/
theorem solve_puzzle_sound (sf g : Nat) (input i1 i2 : String) (b1 b2 : Board)
    (p1 p2 : Player) (hist : List Dir)
    (hs : rustSplitOnce input = some (i1, i2))
    (hb1 : Board.parse i1 = some (Except.ok b1))
    (hp1 : Player.parse i1 = Except.ok p1)
    (hb2 : Board.parse i2 = some (Except.ok b2))
    (hp2 : Player.parse i2 = Except.ok p2)
    (hrun : solve_puzzle sf g input = some (Except.ok hist)) :
    replayOk sf b1 b2 p1 p2 hist = true := by
  unfold solve_puzzle at hrun
  rw [hs] at hrun
  simp only [hb1, hp1, hb2, hp2] at hrun
  rcases hv : solve sf g b1 p1 b2 p2 [(p1, p2)] [] with _ | ov
  · rw [hv] at hrun
    simp at hrun
  · rcases ov with _ | h
    · rw [hv] at hrun
      simp at hrun
    · rw [hv] at hrun
      have hh : h = hist := by simpa using hrun
      subst hh
      obtain ⟨suf, hsuf, hrep⟩ := solveGo_sound sf b1 b2 g
        [Dir.Up, Dir.Down, Dir.Right, Dir.Left] p1 p2 [(p1, p2)] [] h
        (by simpa [solve] using hv)
      simp only [List.nil_append] at hsuf
      rwa [hsuf]

/-- Witness for solution soundness, on the two-board input of two
1-by-1 open boards with the exit straight above: the returned history
is the single move Up and it replays to a joint success. -/
theorem solve_puzzle_sound_witness :
    replayOk 1 ⟨[[Tile.None]], 0⟩ ⟨[[Tile.None]], 0⟩ ⟨0, 0⟩ ⟨0, 0⟩ [Dir.Up] = true :=
  solve_puzzle_sound 1 2 ("x\nR\n\nx\nR") ("x\nR") ("x\nR")
    ⟨[[Tile.None]], 0⟩ ⟨[[Tile.None]], 0⟩ ⟨0, 0⟩ ⟨0, 0⟩ [Dir.Up]
    rfl rfl rfl rfl rfl rfl

/-- C5 (visited-set pruning invariant): along the lineage producing any
returned history, the joint Arrived positions entered after each move
are pairwise distinct and disjoint from the inherited visited set — a
move onto an already-visited joint pair is pruned as Failed, and an
unvisited pair is inserted into the child's visited set before the
recursion, each branch working on its own copy. -/
theorem solve_no_revisit (sf : Nat) (b1 b2 : Board) :
    ∀ (f : Nat) (dirs : List Dir) (p1 p2 : Player) (vis : List (Player × Player))
      (hist h : List Dir),
      solveGo sf b1 b2 f dirs p1 p2 vis hist = some (some h) →
      ∃ suf ps, h = hist ++ suf ∧ collectJoint sf b1 b2 p1 p2 suf = some ps ∧
        ps.Nodup ∧ ∀ q ∈ ps, q ∉ vis
  | 0, dirs, p1, p2, vis, hist, h, hrun => by simp [solveGo] at hrun
  | f + 1, [], p1, p2, vis, hist, h, hrun => by simp [solveGo] at hrun
  | f + 1, dir :: rest, p1, p2, vis, hist, h, hrun => by
    simp only [solveGo] at hrun
    rcases ha1 : apply sf dir b1 p1 with _ | s1
    · rw [ha1] at hrun
      simp at hrun
    rcases ha2 : apply sf dir b2 p2 with _ | s2
    · rw [ha1, ha2] at hrun
      cases s1 <;> simp at hrun
    rw [ha1, ha2] at hrun
    cases s1 with
    | Success =>
      cases s2 with
      | Success =>
        refine ⟨[dir], [], ?_, ?_, ?_, ?_⟩
        · simpa using hrun.symm
        · simp [collectJoint, ha1, ha2]
        · simp
        · simp
      | Dead =>
        exact solve_no_revisit sf b1 b2 f rest p1 p2 vis hist h (by simpa using hrun)
      | Just np2 =>
        exact solve_no_revisit sf b1 b2 f rest p1 p2 vis hist h (by simpa using hrun)
    | Dead =>
      cases s2 <;>
        exact solve_no_revisit sf b1 b2 f rest p1 p2 vis hist h (by simpa using hrun)
    | Just np1 =>
      cases s2 with
      | Success =>
        exact solve_no_revisit sf b1 b2 f rest p1 p2 vis hist h (by simpa using hrun)
      | Dead =>
        exact solve_no_revisit sf b1 b2 f rest p1 p2 vis hist h (by simpa using hrun)
      | Just np2 =>
        simp only at hrun
        by_cases hv : (np1, np2) ∈ vis
        · rw [if_pos hv] at hrun
          exact solve_no_revisit sf b1 b2 f rest p1 p2 vis hist h hrun
        · rw [if_neg hv] at hrun
          rcases hc : solveGo sf b1 b2 f [Dir.Up, Dir.Down, Dir.Right, Dir.Left]
              np1 np2 ((np1, np2) :: vis) (hist ++ [dir]) with _ | oc
          · rw [hc] at hrun
            simp at hrun
          · rcases oc with _ | h'
            · rw [hc] at hrun
              simp only at hrun
              exact solve_no_revisit sf b1 b2 f rest p1 p2 vis hist h hrun
            · rw [hc] at hrun
              have hh : h' = h := by simpa using hrun
              subst hh
              obtain ⟨suf, ps, hsuf, hcol, hnd, hdis⟩ := solve_no_revisit sf b1 b2 f
                [Dir.Up, Dir.Down, Dir.Right, Dir.Left] np1 np2
                ((np1, np2) :: vis) (hist ++ [dir]) h' hc
              refine ⟨dir :: suf, (np1, np2) :: ps, ?_, ?_, ?_, ?_⟩
              · simpa using hsuf
              · simp [collectJoint, ha1, ha2, hcol]
              · refine List.nodup_cons.mpr ⟨?_, hnd⟩
                intro hmem
                exact (hdis _ hmem) (List.mem_cons_self _ _)
              · intro q hq
                rcases List.mem_cons.mp hq with rfl | hq'
                · exact hv
                · intro hqv
                  exact (hdis _ hq') (List.mem_cons_of_mem _ hqv)

/-- Witness for the pruning invariant, on the two 1-by-1 boards: the
search starting from the initial visited set returns the history Up,
whose entered joint positions are distinct and disjoint from it. -/
theorem solve_no_revisit_witness :
    ∃ suf ps, [Dir.Up] = [] ++ suf ∧
      collectJoint 1 ⟨[[Tile.None]], 0⟩ ⟨[[Tile.None]], 0⟩ ⟨0, 0⟩ ⟨0, 0⟩ suf = some ps ∧
      ps.Nodup ∧ ∀ q ∈ ps, q ∉ [((⟨0, 0⟩ : Player), (⟨0, 0⟩ : Player))] :=
  solve_no_revisit 1 ⟨[[Tile.None]], 0⟩ ⟨[[Tile.None]], 0⟩ 1
    [Dir.Up, Dir.Down, Dir.Right, Dir.Left] ⟨0, 0⟩ ⟨0, 0⟩
    [(⟨0, 0⟩, ⟨0, 0⟩)] [] [Dir.Up] rfl

/-- C2 (counterexample): on the repository's own simple test input the
search returns the nine-move history its unit test expects, although
the five-move sequence Right, Left, Up, Up, Up already replays to a
joint success from the parsed start positions — so the returned
sequence is not a shortest solution and differs from what breadth-first
level expansion would return. -/
theorem solve_not_shortest :
    solve_puzzle 2 40 (" x\n...\n...\n.R.\n\n x\n...\n...\n..R") =
      some (Except.ok [Dir.Up, Dir.Up, Dir.Right, Dir.Down, Dir.Down, Dir.Left,
        Dir.Up, Dir.Up, Dir.Up])
    ∧ Board.parse (" x\n...\n...\n.R.") = some (Except.ok
        ⟨[[Tile.None, Tile.None, Tile.None], [Tile.None, Tile.None, Tile.None],
          [Tile.None, Tile.None, Tile.None]], 1⟩)
    ∧ Player.parse (" x\n...\n...\n.R.") = Except.ok ⟨1, 2⟩
    ∧ Board.parse (" x\n...\n...\n..R") = some (Except.ok
        ⟨[[Tile.None, Tile.None, Tile.None], [Tile.None, Tile.None, Tile.None],
          [Tile.None, Tile.None, Tile.None]], 1⟩)
    ∧ Player.parse (" x\n...\n...\n..R") = Except.ok ⟨2, 2⟩
    ∧ replayOk 2
        ⟨[[Tile.None, Tile.None, Tile.None], [Tile.None, Tile.None, Tile.None],
          [Tile.None, Tile.None, Tile.None]], 1⟩
        ⟨[[Tile.None, Tile.None, Tile.None], [Tile.None, Tile.None, Tile.None],
          [Tile.None, Tile.None, Tile.None]], 1⟩
        ⟨1, 2⟩ ⟨2, 2⟩ [Dir.Right, Dir.Left, Dir.Up, Dir.Up, Dir.Up] = true := by
  refine ⟨?_, ?_, ?_, ?_, ?_, ?_⟩ <;> rfl

/-- C2 (amended): solve explores depth-first in the fixed direction
order Up, Down, Right, Left and returns the first success found in
that order — in particular a move that exits both tokens at once via
Up, the first direction tried, is returned immediately as the history
extended by Up, whatever the other directions would produce. The result
need not be a shortest solution. -/
theorem solve_first_success_order (sf f : Nat) (b1 : Board) (p1 : Player)
    (b2 : Board) (p2 : Player) (vis : List (Player × Player)) (hist : List Dir)
    (h1 : apply sf Dir.Up b1 p1 = some State.Success)
    (h2 : apply sf Dir.Up b2 p2 = some State.Success) :
    solve sf (f + 1) b1 p1 b2 p2 vis hist = some (some (hist ++ [Dir.Up])) := by
  simp [solve, solveGo, h1, h2]

/-- Witness for the first-success order: on the two 1-by-1 boards the
very first direction exits both tokens and is returned at once. -/
theorem solve_first_success_order_witness :
    solve 1 1 ⟨[[Tile.None]], 0⟩ ⟨0, 0⟩ ⟨[[Tile.None]], 0⟩ ⟨0, 0⟩ [] [] =
      some (some [Dir.Up]) :=
  solve_first_success_order 1 0 ⟨[[Tile.None]], 0⟩ ⟨0, 0⟩ ⟨[[Tile.None]], 0⟩ ⟨0, 0⟩
    [] [] rfl rfl

/-- C9 (counterexample): an unrecognized tile character is not reported
as an error-kind value — parsing the board x-newline-Z panics
(unimplemented!), modelled as none; and a board containing a single
teleporter parses successfully, so the wrong teleporter count is not a
parse-time error either. -/
theorem parse_panics_not_error :
    Board.parse ("x\nZ") = none
    ∧ Board.parse ("x\nT.") =
        some (Except.ok ⟨[[Tile.Teleport, Tile.None]], 0⟩) := by
  exact ⟨rfl, rfl⟩

/-- C9 (amended): empty input, a missing exit marker and a missing
initial-position marker are reported as the distinct error kinds
InputEmpty, NoExit and NoPlayer at parse time; an unrecognized tile
character panics at parse time instead of returning an error kind, and
a wrong teleporter count is not detected at parse time — it surfaces as
a panic when the lone teleporter is used during the search. -/
theorem parse_error_kinds :
    Board.parse ("") = some (Except.error Error.InputEmpty)
    ∧ Board.parse ("abc") = some (Except.error Error.NoExit)
    ∧ Player.parse ("x\n...") = Except.error Error.NoPlayer
    ∧ Error.InputEmpty ≠ Error.NoExit
    ∧ Error.InputEmpty ≠ Error.NoPlayer
    ∧ Error.NoExit ≠ Error.NoPlayer
    ∧ Board.parse ("x\nZ.") = none
    ∧ Player.teleport ⟨0, 0⟩ ⟨[[Tile.Teleport, Tile.None]], 0⟩ = none := by
  exact ⟨rfl, rfl, rfl, by decide, by decide, by decide, rfl, rfl⟩

/-- C10 (counterexample): an input without a blank-line-separated
second board does not produce a Result value — split_once finds no
separator and solve_puzzle panics (expect), modelled as none. -/
theorem solve_puzzle_one_board_panics :
    rustSplitOnce ("x\nR") = none ∧ solve_puzzle 1 5 ("x\nR") = none :=
  ⟨rfl, rfl⟩

/-- C10 (amended): solve_puzzle handles only the two-board variant
through the Result interface: an input lacking the double-newline
separator always panics before parsing, whatever the fuel, while a
well-formed two-board input yields Ok with the direction sequence. -/
theorem solve_puzzle_two_board_interface :
    (∀ (sf g : Nat) (input : String), rustSplitOnce input = none →
      solve_puzzle sf g input = none)
    ∧ solve_puzzle 1 2 ("x\nR\n\nx\nR") = some (Except.ok [Dir.Up]) := by
  constructor
  · intro sf g input h
    simp [solve_puzzle, h]
  · rfl

/-- Witness for the two-board interface: the single-board input panics
for the concrete fuels 3 and 7 as well. -/
theorem solve_puzzle_two_board_interface_witness :
    solve_puzzle 3 7 ("x\nR") = none :=
  solve_puzzle_two_board_interface.1 3 7 ("x\nR") rfl

end HiveMind
